import Mathlib

/-!
# Verification of `dsci_2022/chunksumm.py`

A shallow embedding of the chunked-summarization pipeline in
`src/source/dsci_2022/chunksumm.py`, together with proofs of the
specification's claims about it.

Modelling conventions:
* A 2-D tensor of shape `(batch, seq)` is a `List (List α)`; torch tensors
  are rectangular, which the statements capture through `shape2 t =
  List.replicate B L` hypotheses.
* Token tensors (`input_ids`, `attention_mask`, `token_type_ids`) hold `Int`
  entries; floating-point tensors are modelled over `ℚ` (exact arithmetic in
  place of IEEE floats).
* The pretrained encoder `self.bert` is an external capability: a function
  from the three token tensors to the tuple entry `[2]` of its output, the
  list of layered hidden states, each of shape `(batch, seq, hidden)`.
* Python exceptions are modelled by `Option`: `none` is a raised error.
-/

/-- Shape of a 2-D tensor along dim 0/1: the list of row lengths. -/
def shape2 {α : Type} (t : List (List α)) : List Nat := t.map List.length

/-- Per-row shape of a 3-D tensor (the innermost hidden dimension is left
opaque). -/
def shape3 {α : Type} (t : List (List (List α))) : List (List Nat) := t.map shape2

/-- `t.size(1)` of a (rectangular) 2-D tensor: the length of its first row. -/
def dim1 {α : Type} (t : List (List α)) : Nat :=
  match t with
  | [] => 0
  | r :: _ => r.length

/-- Hidden-state stack returned by the encoder call
`self.bert(input_ids, attention_mask, token_type_ids, output_hidden_states=True)[2]`:
a list of layers, each of shape `(batch, seq, hidden)`. -/
abbrev Encoder : Type :=
  List (List Int) → List (List Int) → List (List Int) → List (List (List (List ℚ)))

/-- Recursion driving `torch.split(·, split_size_or_sections=512, dim=1)`:
`cols` counts the not-yet-consumed columns of dim 1. -/
def chunkGo {α : Type} (cols : Nat) (t : List (List α)) : List (List (List α)) :=
  match cols with
  | 0 => []
  | c + 1 =>
    (t.map (fun r => r.take 512)) :: chunkGo (c - 511) (t.map (fun r => r.drop 512))
termination_by cols
decreasing_by omega

/-- `CHUNKSUMM.chunk`: `partial(torch.split, split_size_or_sections=512, dim=1)`
(the word `partial` here is Python's `functools`): consecutive windows of 512
columns, the last one possibly shorter. -/
def chunk {α : Type} (t : List (List α)) : List (List (List α)) :=
  chunkGo (dim1 t) t

/-- `torch.cat(handler, dim=1)`: concatenate 3-D tensors along dim 1
(requires equal batch sizes, which the claims' hypotheses guarantee). -/
def catD1 {α : Type} : List (List (List α)) → List (List α)
  | [] => []
  | [u] => u
  | u :: us => List.zipWith (· ++ ·) u (catD1 us)

/-- Elementwise sum of two stacked hidden-state layers of shape
`(batch, seq, hidden)`. -/
def addT3 (x y : List (List (List ℚ))) : List (List (List ℚ)) :=
  List.zipWith (List.zipWith (List.zipWith (· + ·))) x y

/-- Elementwise scalar multiple of a `(batch, seq, hidden)` tensor. -/
def scaleT3 (c : ℚ) (x : List (List (List ℚ))) : List (List (List ℚ)) :=
  x.map (fun m => m.map (fun r => r.map (fun v => c * v)))

/-- `torch.stack(hidden_states)[-5:].mean(0)`: the elementwise mean of the
last (up to) five hidden-state layers. -/
def meanLast5 (hs : List (List (List (List ℚ)))) : List (List (List ℚ)) :=
  match hs.drop (hs.length - 5) with
  | [] => []
  | h :: t => scaleT3 (1 / (1 + t.length : ℚ)) (t.foldl addT3 h)

/-- `CHUNKSUMM.get_embedding`.  In chunked mode the three tensors are split
into 512-column windows, each window triple is encoded and mean-pooled, and
the per-window embeddings are concatenated back along dim 1 (the Python `zip`
over the three chunk tuples is `List.zipWith3`).  In non-chunked mode the
inputs are truncated to their first 512 columns and encoded once. -/
def get_embedding (bert : Encoder) (enable_chunk : Bool)
    (input_ids attention_mask token_type_ids : List (List Int)) :
    List (List (List ℚ)) :=
  if enable_chunk then
    catD1 (List.zipWith3 (fun a b c => meanLast5 (bert a b c))
      (chunk input_ids) (chunk attention_mask) (chunk token_type_ids))
  else
    meanLast5 (bert
      (input_ids.map (fun r => r.take 512))
      (attention_mask.map (fun r => r.take 512))
      (token_type_ids.map (fun r => r.take 512)))

/-- `CHUNKSUMM.expand_targets`: `targets.bool()` followed by the comprehension
`[[1.,0.] if val else [0.,1.] for batch in targets.bool() for val in batch]`,
stacked.  (`torch.stack` raises on an empty list; the claims therefore
restrict themselves to non-empty targets.) -/
def expand_targets (targets : List (List ℚ)) : List (List ℚ) :=
  ((targets.map (fun row => row.map (fun v => decide (v ≠ 0)))).flatten).map
    (fun val => if val then [(1 : ℚ), 0] else [0, 1])

/-- Dot product, for the linear head `torch.nn.Linear(768, n_classes)`. -/
def dot (w x : List ℚ) : ℚ := (List.zipWith (· * ·) w x).sum

/-- One application of the linear head `self.l1` to a single token embedding:
weight matrix `W` (one row per class) and bias vector `b`. -/
def linear (W : List (List ℚ)) (b : List ℚ) (x : List ℚ) : List ℚ :=
  List.zipWith (fun wrow bi => dot wrow x + bi) W b

/-- `CHUNKSUMM.forward`: embedding, linear head, then raw logits when
`train = true` and a softmax over the last dimension otherwise.  Softmax is
transcendental, hence not representable over `ℚ`; it is abstracted as the
row function `softmaxF`. -/
def forward (bert : Encoder) (enable_chunk : Bool)
    (W : List (List ℚ)) (b : List ℚ) (softmaxF : List ℚ → List ℚ)
    (input_ids attention_mask token_type_ids : List (List Int))
    (train : Bool) : List (List (List ℚ)) :=
  let embed2d := get_embedding bert enable_chunk input_ids attention_mask token_type_ids
  let logits := embed2d.map (fun m => m.map (linear W b))
  if train then logits else logits.map (fun m => m.map softmaxF)

/-- Number of scalar entries of a 2-D tensor. -/
def numel2 {α : Type} (t : List (List α)) : Nat := (t.map List.length).sum

/-- Number of scalar entries of a 3-D tensor. -/
def numel3 {α : Type} (t : List (List (List α))) : Nat := (t.map numel2).sum

/-- Row-major refill of a flat list into the 2-D shape of `m`. -/
def refill2 {α : Type} (m : List (List α)) (xs : List ℚ) : List (List ℚ) :=
  match m with
  | [] => []
  | r :: rest => xs.take r.length :: refill2 rest (xs.drop r.length)

/-- Row-major refill of a flat list into the 3-D shape of `shape`. -/
def refill3 {α : Type} (shape : List (List (List α))) (xs : List ℚ) :
    List (List (List ℚ)) :=
  match shape with
  | [] => []
  | m :: rest => refill2 m (xs.take (numel2 m)) :: refill3 rest (xs.drop (numel2 m))

/-- `labels.reshape_as(outputs)` for a flattened (row-major) label tensor:
torch raises unless the element counts agree exactly. -/
def reshape_as (xs : List ℚ) (outputs : List (List (List ℚ))) :
    Option (List (List (List ℚ))) :=
  if xs.length = numel3 outputs then some (refill3 outputs xs) else none

/-- `BCEWithLogitsLoss` (transcendental, abstracted) takes outputs and
reshaped labels to a scalar; `torchmetrics.AUROC` likewise, against the
integer-cast labels. -/
abbrev Criterion : Type := List (List (List ℚ)) → List (List (List ℚ)) → ℚ

/-- `labels.int()`: truncation of each entry toward zero. -/
def truncQ (q : ℚ) : ℤ := if 0 ≤ q then ⌊q⌋ else -⌊-q⌋

/-- Integer cast of a 3-D float tensor, as fed to `self.auc`. -/
def intT3 (t : List (List (List ℚ))) : List (List (List ℤ)) :=
  t.map (fun m => m.map (fun r => r.map truncQ))

/-- One collated batch, as produced by `SummDataModule.collate` and consumed
by the step methods. -/
structure BatchOut where
  input_ids : List (List Int)
  attention_mask : List (List Int)
  token_type_ids : List (List Int)
  targets : List (List ℚ)
deriving DecidableEq

/-- The AUROC metric, abstracted (it is computed but only logged). -/
abbrev AucMetric : Type := List (List (List ℚ)) → List (List (List ℤ)) → ℚ

/-- `CHUNKSUMM.training_step`: forward with `train=True`, expand the batch
targets (`batch["targets"].float()` is the identity on our `ℚ` model),
reshape them as the outputs (raising on an element-count mismatch), then
compute loss and AUC.  Returns the dict
`{"loss": loss, "predictions": outputs, "labels": labels}`;
the `self.log` calls are side effects outside the model. -/
def training_step (bert : Encoder) (enable_chunk : Bool)
    (W : List (List ℚ)) (b : List ℚ) (softmaxF : List ℚ → List ℚ)
    (criterion : Criterion) (auc : AucMetric) (batch : BatchOut) :
    Option (ℚ × List (List (List ℚ)) × List (List (List ℚ)) × ℚ) :=
  let outputs := forward bert enable_chunk W b softmaxF
    batch.input_ids batch.attention_mask batch.token_type_ids true
  match reshape_as (expand_targets batch.targets).flatten outputs with
  | none => none
  | some labels => some (criterion outputs labels, outputs, labels, auc outputs (intT3 labels))

/-- `CHUNKSUMM.validation_step`: identical label handling, but the forward
pass runs with `train=False` (softmax probabilities) and only the loss is
returned. -/
def validation_step (bert : Encoder) (enable_chunk : Bool)
    (W : List (List ℚ)) (b : List ℚ) (softmaxF : List ℚ → List ℚ)
    (criterion : Criterion) (auc : AucMetric) (batch : BatchOut) : Option ℚ :=
  let outputs := forward bert enable_chunk W b softmaxF
    batch.input_ids batch.attention_mask batch.token_type_ids false
  match reshape_as (expand_targets batch.targets).flatten outputs with
  | none => none
  | some labels =>
    let _ := auc outputs (intT3 labels)
    some (criterion outputs labels)

/-- `CHUNKSUMM.test_step`: same body shape as `validation_step`. -/
def test_step (bert : Encoder) (enable_chunk : Bool)
    (W : List (List ℚ)) (b : List ℚ) (softmaxF : List ℚ → List ℚ)
    (criterion : Criterion) (auc : AucMetric) (batch : BatchOut) : Option ℚ :=
  let outputs := forward bert enable_chunk W b softmaxF
    batch.input_ids batch.attention_mask batch.token_type_ids false
  match reshape_as (expand_targets batch.targets).flatten outputs with
  | none => none
  | some labels =>
    let _ := auc outputs (intT3 labels)
    some (criterion outputs labels)

/-- Output of one tokenizer call: the fields of the returned encoding that
this code uses (`return_tensors` absent in paper-level mode gives plain
lists; the 1-row tensors of sentence mode are flattened right away, so both
are one-dimensional here). -/
structure TokOut where
  input_ids : List Int
  token_type_ids : List Int
  attention_mask : List Int
deriving DecidableEq

/-- One row of the source DataFrame.  `text` and `in_summary` are `Option`s
so that a malformed Record is representable: `none` models a missing cell,
i.e. pandas' NaN marker.  Feeding a missing `text` to the tokenizer raises;
a missing `in_summary` does NOT raise — NaN is truthy in Python, so the
label reads below coerce it silently instead of failing. -/
structure RawRecord where
  paper_id : Nat
  text : Option String
  in_summary : Option Bool
deriving DecidableEq

/-- One tokenized sentence inside `combine_inputs`, after the in-place
`row["tokens"].update({"targets": [row["in_summary"]] * len(...)})`:
the tokenizer fields plus the propagated per-token labels (booleans read
numerically, `True = 1`, `False = 0`). -/
structure SentTok where
  input_ids : List Int
  token_type_ids : List Int
  attention_mask : List Int
  targets : List ℚ
deriving DecidableEq

/-- A tokenized example as returned by `SuMM_with_tokenizer.__getitem__`
(all four fields one-dimensional). -/
structure TokExQ where
  input_ids : List Int
  token_type_ids : List Int
  attention_mask : List Int
  targets : List ℚ
deriving DecidableEq

/-- Tokenize one DataFrame row inside `combine_inputs`
(`tokenizer(y, add_special_tokens=False)`, then the in-place label
propagation `[row["in_summary"]] * len(...)`).  The tokenizer capability
takes the `add_special_tokens` flag first.  A missing `text` cell makes the
tokenizer raise (`none`).  A missing `in_summary` cell does NOT raise: the
NaN merely propagates into the targets list.  IEEE NaN has no counterpart in
`ℚ`; it is modelled by the nonzero stand-in 1, which is observationally
equivalent here because raw targets are only ever read through truthiness
(`targets.bool()` in `expand_targets`), where NaN counts as nonzero. -/
def tokenizeRow (tok : Bool → String → TokOut) (r : RawRecord) : Option SentTok :=
  match r.text with
  | none => none
  | some txt =>
    let o := tok false txt
    some { input_ids := o.input_ids
         , token_type_ids := o.token_type_ids
         , attention_mask := o.attention_mask
         , targets := List.replicate o.input_ids.length
             (match r.in_summary with
              | some s => if s then (1 : ℚ) else 0
              | none => 1) }

/-- Insertion into a `≤`-sorted list of keys. -/
def insertSorted (x : Nat) : List Nat → List Nat
  | [] => [x]
  | y :: ys => if x ≤ y then x :: y :: ys else y :: insertSorted x ys

/-- Insertion sort over keys. -/
def sortKeys (l : List Nat) : List Nat := l.foldr insertSorted []

/-- The distinct group keys of `df.groupby('paper_id')`, in the sorted order
pandas uses (`sort=True` is the default). -/
def uniqueSortedKeys (l : List Nat) : List Nat := sortKeys l.dedup

/-- Concatenated aggregation of a list of tokenized sentences, as performed
by the `agg(lambda l: {...sum([...], start=[])...})` over one group: all four
fields are concatenated in the group's (source) row order. -/
def aggGroup (toks : List SentTok) : TokExQ :=
  { input_ids := (toks.map SentTok.input_ids).flatten
  , token_type_ids := (toks.map SentTok.token_type_ids).flatten
  , attention_mask := (toks.map SentTok.attention_mask).flatten
  , targets := (toks.map SentTok.targets).flatten }

/-- `SuMM_with_tokenizer.combine_inputs`: tokenize every row, propagate each
row's label across its tokens, group by `paper_id` (keys sorted), aggregate
each group by concatenation, and return `out.to_list()[0]` — only the first
group, i.e. the group of the smallest `paper_id`; `to_list()[0]` raises on an
empty frame. -/
def combine_inputs (tok : Bool → String → TokOut) (rows : List RawRecord) :
    Option TokExQ := do
  let toks ← rows.mapM (tokenizeRow tok)
  match uniqueSortedKeys (rows.map RawRecord.paper_id) with
  | [] => none
  | k :: _ =>
    some (aggGroup (((rows.zip toks).filter (fun p => p.1.paper_id = k)).map Prod.snd))

/-- The whole-input aggregation that `combine_inputs` is supposed to refine
when its input holds a single `paper_id`: tokenize every row and concatenate
everything, dropping nothing.  (Spec-side comparison point.) -/
def combineGroupAll (tok : Bool → String → TokOut) (rows : List RawRecord) :
    Option TokExQ :=
  (rows.mapM (tokenizeRow tok)).map aggGroup

/-- `data.groupby('paper_id').groups.values()` as used to build
`self.papers_dict`: for each distinct `paper_id` in sorted order, the list of
row positions carrying it, in source order. -/
def papersDict (data : List RawRecord) : List (List Nat) :=
  (uniqueSortedKeys (data.map RawRecord.paper_id)).map
    (fun k => (List.range data.length).filter
      (fun i => decide ((data[i]?.map RawRecord.paper_id) = some k)))

/-- The state built by `SuMM_with_tokenizer.__init__`. -/
structure SuMMProvider where
  data : List RawRecord
  papers_dict : List (List Nat)
deriving DecidableEq

/-- `SuMM_with_tokenizer.__init__`: stores the frame and builds
`papers_dict` from `data.groupby('paper_id')`.  It touches only `paper_id`;
no access to `text` or `in_summary` happens here, so construction cannot
raise for records whose `text`/`in_summary` is missing (the `Option` result
models Python exceptions and is always `some`). -/
def mkProvider (data : List RawRecord) : Option SuMMProvider :=
  some { data := data, papers_dict := papersDict data }

/-- Sentence-level branch of `SuMM_with_tokenizer.__getitem__`: tokenizes
`datum.text` with special tokens, then reads the label through Python
truthiness — `[1.]*input_len if datum.in_summary else [0.]*input_len`.
A missing `text` raises inside the tokenizer (`none`); a missing
`in_summary` cell (pandas' NaN, which is truthy) is silently coerced to the
positive class rather than raising. -/
def getitemSentence (tok : Bool → String → TokOut) (data : List RawRecord)
    (index : Nat) : Option TokExQ :=
  match data[index]? with
  | none => none
  | some datum =>
    match datum.text with
    | none => none
    | some txt =>
      let inputs := tok true txt
      let input_len := inputs.input_ids.length
      some { input_ids := inputs.input_ids
           , token_type_ids := inputs.token_type_ids
           , attention_mask := inputs.attention_mask
           , targets := List.replicate input_len
               (if (match datum.in_summary with
                    | some s => s
                    | none => true) then (1 : ℚ) else 0) }

/-- Paper-level branch of `SuMM_with_tokenizer.__getitem__`:
`self.data.loc[self.papers_dict[index], :]` then `combine_inputs`
(the final `.flatten()` calls are the identity on one-dimensional data). -/
def getitemPaper (tok : Bool → String → TokOut) (data : List RawRecord)
    (index : Nat) : Option TokExQ :=
  match (papersDict data)[index]? with
  | none => none
  | some g => combine_inputs tok (g.filterMap (fun i => data[i]?))

/-- Zero-pad a 1-D tensor on the right to length `m`
(`out = torch.zeros(max); out[:len(tensor)] = tensor` — torch raises when
the tensor is longer than `max`). -/
def padTo {α : Type} (m : Nat) (zero : α) (xs : List α) : Option (List α) :=
  if xs.length ≤ m then some (xs ++ List.replicate (m - xs.length) zero) else none

/-- `SummDataModule.collate`: `maximum` is the largest `input_ids` length of
the batch (`max()` raises on an empty batch); `input_ids`, `attention_mask`
and `targets` are zero-padded to it and stacked; `token_type_ids` is a fresh
all-zero tensor.  The `.int()` casts on `input_ids`/`attention_mask` leave
the integer values unchanged, so those fields stay `Int`-typed here while
`targets` remains a float (`ℚ`) tensor. -/
def collate (batch : List TokExQ) : Option BatchOut :=
  match batch with
  | [] => none
  | _ => do
    let maximum := (batch.map (fun item => item.input_ids.length)).foldl max 0
    let ii ← batch.mapM (fun datum => padTo maximum (0 : Int) datum.input_ids)
    let am ← batch.mapM (fun datum => padTo maximum (0 : Int) datum.attention_mask)
    let tg ← batch.mapM (fun datum => padTo maximum (0 : ℚ) datum.targets)
    some { input_ids := ii
         , attention_mask := am
         , token_type_ids := List.replicate batch.length (List.replicate maximum (0 : Int))
         , targets := tg }


/-! ## Shape helper lemmas -/

theorem shape2_length {α : Type} (t : List (List α)) : (shape2 t).length = t.length := by
  simp [shape2]

theorem shape2_ttake {α : Type} (n : Nat) (t : List (List α)) :
    shape2 (t.map (fun r => r.take n)) = (shape2 t).map (fun l => min n l) := by
  simp [shape2, List.map_map, Function.comp]

theorem shape2_tdrop {α : Type} (n : Nat) (t : List (List α)) :
    shape2 (t.map (fun r => r.drop n)) = (shape2 t).map (fun l => l - n) := by
  simp [shape2, List.map_map, Function.comp]

theorem length_of_mem_shape2_replicate {α : Type} {t : List (List α)} {B L : Nat}
    (h : shape2 t = List.replicate B L) {r : List α} (hr : r ∈ t) : r.length = L := by
  have : r.length ∈ shape2 t := by simp [shape2]; exact ⟨r, hr, rfl⟩
  rw [h] at this
  exact List.eq_of_mem_replicate this

theorem dim1_of_shape2_replicate {α : Type} {t : List (List α)} {B L : Nat}
    (h : shape2 t = List.replicate B L) (hB : 0 < B) : dim1 t = L := by
  cases t with
  | nil => simp [shape2] at h; omega
  | cons r rest =>
    have : r.length = L := length_of_mem_shape2_replicate h (by simp)
    simpa [dim1] using this

theorem ttake_eq_self {α : Type} {n : Nat} {t : List (List α)}
    (h : ∀ r ∈ t, r.length ≤ n) : t.map (fun r => r.take n) = t := by
  induction t with
  | nil => rfl
  | cons r rest ih =>
    simp only [List.map_cons, List.take_of_length_le (h r (by simp)),
      ih (fun s hs => h s (by simp [hs]))]

theorem chunk_eq_single {α : Type} {t : List (List α)} {B L : Nat}
    (h : shape2 t = List.replicate B L) (hB : 0 < B) (hL : 0 < L) (hle : L ≤ 512) :
    chunk t = [t] := by
  have hd : dim1 t = L := dim1_of_shape2_replicate h hB
  obtain ⟨c, rfl⟩ : ∃ c, L = c + 1 := ⟨L - 1, by omega⟩
  rw [chunk, hd, chunkGo]
  have hc : c - 511 = 0 := by omega
  rw [hc, chunkGo]
  rw [ttake_eq_self (fun r hr => by
    rw [length_of_mem_shape2_replicate h hr]; omega)]

/-- C1: For every batch of token sequences (`input_ids`, `attention_mask`,
`token_type_ids`) whose token length `L` is at most 512, `get_embedding` with
`enable_chunk=True` returns exactly the same embedding tensor as
`get_embedding` with `enable_chunk=False`: with window 512 the chunked path
degenerates to the non-chunked path when `L ≤ 512`. -/
theorem get_embedding_chunk_degenerate (bert : Encoder) (B L : Nat)
    (ii am tt : List (List Int))
    (hB : 0 < B) (hL : 0 < L) (hle : L ≤ 512)
    (hii : shape2 ii = List.replicate B L)
    (ham : shape2 am = List.replicate B L)
    (htt : shape2 tt = List.replicate B L) :
    get_embedding bert true ii am tt = get_embedding bert false ii am tt := by
  have hti : ii.map (fun r => r.take 512) = ii :=
    ttake_eq_self (fun r hr => by rw [length_of_mem_shape2_replicate hii hr]; omega)
  have hta : am.map (fun r => r.take 512) = am :=
    ttake_eq_self (fun r hr => by rw [length_of_mem_shape2_replicate ham hr]; omega)
  have htc : tt.map (fun r => r.take 512) = tt :=
    ttake_eq_self (fun r hr => by rw [length_of_mem_shape2_replicate htt hr]; omega)
  rw [get_embedding, get_embedding]
  simp only [if_pos rfl, Bool.false_eq_true, if_neg (by simp : ¬ (false = true)),
    chunk_eq_single hii hB hL hle, chunk_eq_single ham hB hL hle,
    chunk_eq_single htt hB hL hle, hti, hta, htc]
  rfl

/-- Witness for C1 at a concrete one-row batch of length 2. -/
theorem get_embedding_chunk_degenerate_witness :
    (0 < 1 ∧ 0 < 2 ∧ 2 ≤ 512
      ∧ shape2 [[(3 : Int), 4]] = List.replicate 1 2)
    ∧ get_embedding (fun a _ _ => [a.map (fun r => r.map (fun v => [(v : ℚ)]))])
        true [[(3 : Int), 4]] [[1, 1]] [[0, 0]]
      = get_embedding (fun a _ _ => [a.map (fun r => r.map (fun v => [(v : ℚ)]))])
        false [[(3 : Int), 4]] [[1, 1]] [[0, 0]] :=
  ⟨⟨Nat.one_pos, by omega, by omega, by decide⟩,
    get_embedding_chunk_degenerate _ 1 2 _ _ _ Nat.one_pos (by omega) (by omega)
      (by decide) (by decide) (by decide)⟩

/-! ## Chunk bookkeeping: the window lengths produced by `torch.split(·, 512, dim=1)` -/

/-- The dim-1 sizes of the chunks of a tensor with `cols` columns. -/
def chunkLens (cols : Nat) : List Nat :=
  match cols with
  | 0 => []
  | c + 1 => min 512 (c + 1) :: chunkLens (c - 511)
termination_by cols
decreasing_by omega

theorem chunkLens_sum (cols : Nat) : (chunkLens cols).sum = cols := by
  induction cols using Nat.strong_induction_on with
  | _ c ih =>
    match c with
    | 0 => simp [chunkLens]
    | k + 1 =>
      rw [chunkLens]
      rw [List.sum_cons, ih (k - 511) (by omega)]
      omega

theorem chunkLens_eq_nil_iff (cols : Nat) : chunkLens cols = [] ↔ cols = 0 := by
  match cols with
  | 0 => simp [chunkLens]
  | k + 1 => rw [chunkLens]; simp

theorem chunkLens_length (cols : Nat) : (chunkLens cols).length = (cols + 511) / 512 := by
  induction cols using Nat.strong_induction_on with
  | _ c ih =>
    match c with
    | 0 => simp [chunkLens]
    | k + 1 =>
      rw [chunkLens]
      rw [List.length_cons, ih (k - 511) (by omega)]
      omega

theorem chunkLens_pos_le (cols : Nat) : ∀ x ∈ chunkLens cols, 0 < x ∧ x ≤ 512 := by
  induction cols using Nat.strong_induction_on with
  | _ c ih =>
    match c with
    | 0 => simp [chunkLens]
    | k + 1 =>
      rw [chunkLens]
      intro x hx
      rcases List.mem_cons.1 hx with h | h
      · omega
      · exact ih (k - 511) (by omega) x h

theorem chunkLens_all_but_last (cols : Nat) :
    ∀ j, j + 1 < (chunkLens cols).length → (chunkLens cols)[j]? = some 512 := by
  induction cols using Nat.strong_induction_on with
  | _ c ih =>
    match c with
    | 0 => simp [chunkLens]
    | k + 1 =>
      rw [chunkLens]
      intro j hj
      match j with
      | 0 =>
        rw [List.getElem?_cons_zero]
        have hne : chunkLens (k - 511) ≠ [] := by
          intro hnil
          rw [hnil] at hj
          simp at hj
        have : k - 511 ≠ 0 := fun h0 => hne (by rw [h0]; simp [chunkLens])
        have : min 512 (k + 1) = 512 := by omega
        rw [this]
      | j' + 1 =>
        rw [List.getElem?_cons_succ]
        exact ih (k - 511) (by omega) j' (by simpa using hj)

/-! ## Shapes of `chunkGo` and `catD1` -/

theorem shape2_nil {α : Type} : shape2 ([] : List (List α)) = [] := rfl

theorem shape2_cons {α : Type} (r : List α) (t : List (List α)) :
    shape2 (r :: t) = r.length :: shape2 t := rfl

theorem chunkGo_length {α : Type} (cols : Nat) (t : List (List α)) :
    (chunkGo cols t).length = (chunkLens cols).length := by
  induction cols using Nat.strong_induction_on generalizing t with
  | _ c ih =>
    match c with
    | 0 => rw [chunkGo, chunkLens]; rfl
    | k + 1 =>
      rw [chunkGo, chunkLens, List.length_cons, List.length_cons,
        ih (k - 511) (by omega)]

theorem chunkGo_ne_nil {α : Type} {cols : Nat} (h : cols ≠ 0) (t : List (List α)) :
    chunkGo cols t ≠ [] := by
  match cols with
  | 0 => omega
  | k + 1 => rw [chunkGo]; simp

theorem chunkGo_shape {α : Type} (cols : Nat) (t : List (List α)) (B L : Nat)
    (h : shape2 t = List.replicate B L) (hc : cols = L) :
    (chunkGo cols t).map shape2 = (chunkLens cols).map (fun l => List.replicate B l) := by
  induction cols using Nat.strong_induction_on generalizing t L with
  | _ c ih =>
    match c with
    | 0 => rw [chunkGo, chunkLens]; rfl
    | k + 1 =>
      rw [chunkGo, chunkLens, List.map_cons, List.map_cons]
      have hhead : shape2 (t.map (fun r => r.take 512)) = List.replicate B (min 512 (k + 1)) := by
        rw [shape2_ttake, h, List.map_replicate, hc]
      have htail : shape2 (t.map (fun r => r.drop 512)) = List.replicate B (L - 512) := by
        rw [shape2_tdrop, h, List.map_replicate]
      rw [hhead, ih (k - 511) (by omega) _ (L - 512) htail (by omega)]

theorem catD1_cons_of_ne_nil {α : Type} (u : List (List α)) {us : List (List (List α))}
    (h : us ≠ []) : catD1 (u :: us) = List.zipWith (· ++ ·) u (catD1 us) := by
  match us with
  | [] => exact absurd rfl h
  | v :: rest => rfl

theorem shape2_zipWith_append {α : Type} (x y : List (List α)) :
    shape2 (List.zipWith (· ++ ·) x y) = List.zipWith (· + ·) (shape2 x) (shape2 y) := by
  induction x generalizing y with
  | nil => rfl
  | cons a x ih =>
    cases y with
    | nil => rfl
    | cons b y =>
      simp only [List.zipWith_cons_cons, shape2_cons, List.length_append, ih]

theorem zipWith_add_replicate (B a b : Nat) :
    List.zipWith (· + ·) (List.replicate B a) (List.replicate B b)
      = List.replicate B (a + b) := by
  induction B with
  | zero => rfl
  | succ n ih => simp [List.replicate_succ, ih]

theorem catD1_shape {α : Type} :
    ∀ (us : List (List (List α))) (lens : List Nat) (B : Nat),
    us.map shape2 = lens.map (fun l => List.replicate B l) → us ≠ [] →
    shape2 (catD1 us) = List.replicate B lens.sum := by
  intro us
  induction us with
  | nil => intro lens B _ h; exact absurd rfl h
  | cons u us ih =>
    intro lens B hmap _
    cases lens with
    | nil => simp at hmap
    | cons l lens' =>
      rw [List.map_cons, List.map_cons] at hmap
      obtain ⟨hu, hus⟩ := List.cons.inj hmap
      cases us with
      | nil =>
        cases lens' with
        | nil => simpa [catD1, List.sum_cons] using hu
        | cons _ _ => simp at hus
      | cons v rest =>
        rw [catD1_cons_of_ne_nil u (by simp), shape2_zipWith_append, hu,
          ih lens' B hus (by simp), zipWith_add_replicate, List.sum_cons]

/-! ## The external encoder capability and the pooled-embedding shape -/

/-- The well-formedness the claims assume of the external encoder: it returns
at least one hidden-state layer and every layer has the same `(batch, seq)`
shape as the token input it was given. -/
def encoderOk (bert : Encoder) : Prop :=
  ∀ a b c, bert a b c ≠ [] ∧ ∀ l ∈ bert a b c, shape2 l = shape2 a

theorem shape2_addT3 {x y : List (List (List ℚ))} {s : List Nat}
    (hx : shape2 x = s) (hy : shape2 y = s) : shape2 (addT3 x y) = s := by
  induction x generalizing y s with
  | nil =>
    rw [shape2_nil] at hx
    cases y with
    | nil => exact hx
    | cons b y => rw [shape2_cons, ← hx] at hy; simp at hy
  | cons a x ih =>
    rw [shape2_cons] at hx
    cases y with
    | nil => rw [shape2_nil, ← hx] at hy; simp at hy
    | cons b y =>
      rw [shape2_cons] at hy
      subst hx
      obtain ⟨hb, hy'⟩ := List.cons.inj hy
      rw [addT3, List.zipWith_cons_cons, shape2_cons]
      have hlen : (List.zipWith (List.zipWith (· + ·)) a b).length = a.length := by
        rw [List.length_zipWith, hb, min_self]
      rw [hlen]
      exact congrArg _ (ih rfl hy')

theorem shape2_scaleT3 (c : ℚ) (x : List (List (List ℚ))) :
    shape2 (scaleT3 c x) = shape2 x := by
  simp [scaleT3, shape2, List.map_map, Function.comp]

theorem shape2_foldl_addT3 {s : List Nat} :
    ∀ (ts : List (List (List (List ℚ)))) (h : List (List (List ℚ))),
    shape2 h = s → (∀ x ∈ ts, shape2 x = s) → shape2 (ts.foldl addT3 h) = s := by
  intro ts
  induction ts with
  | nil => intro h hh _; exact hh
  | cons x ts ih =>
    intro h hh hall
    rw [List.foldl_cons]
    exact ih _ (shape2_addT3 hh (hall x (by simp)))
      (fun y hy => hall y (by simp [hy]))

theorem shape2_meanLast5 {hs : List (List (List (List ℚ)))} {s : List Nat}
    (hne : hs ≠ []) (hsh : ∀ l ∈ hs, shape2 l = s) : shape2 (meanLast5 hs) = s := by
  rw [meanLast5]
  split
  · rename_i heq
    have : hs.length ≤ hs.length - 5 := List.drop_eq_nil_iff.1 heq
    have : hs.length = 0 := by omega
    exact absurd (List.length_eq_zero.1 this) hne
  · rename_i h t heq
    have hmem : ∀ x ∈ h :: t, shape2 x = s := by
      intro x hx
      exact hsh x (List.mem_of_mem_drop (heq ▸ hx))
    rw [shape2_scaleT3]
    exact shape2_foldl_addT3 t h (hmem h (by simp)) (fun x hx => hmem x (by simp [hx]))

/-- The per-window pooled embeddings have the same `(batch, seq)` shapes as
the corresponding `input_ids` windows. -/
theorem zipWith3_chunkGo_shape (bert : Encoder) (hbert : encoderOk bert)
    (cols : Nat) (ta tb tc : List (List Int))
    (hb : shape2 tb = shape2 ta) (hc : shape2 tc = shape2 ta) :
    (List.zipWith3 (fun a b c => meanLast5 (bert a b c))
        (chunkGo cols ta) (chunkGo cols tb) (chunkGo cols tc)).map shape2
      = (chunkGo cols ta).map shape2 := by
  induction cols using Nat.strong_induction_on generalizing ta tb tc with
  | _ c ih =>
    match c with
    | 0 => rw [chunkGo]; rfl
    | k + 1 =>
      simp only [chunkGo]
      simp only [List.zipWith3, List.map_cons]
      have hhead : shape2 (meanLast5 (bert (ta.map (fun r => r.take 512))
          (tb.map (fun r => r.take 512)) (tc.map (fun r => r.take 512))))
          = shape2 (ta.map (fun r => r.take 512)) :=
        shape2_meanLast5 (hbert _ _ _).1 (hbert _ _ _).2
      rw [hhead]
      have htb : shape2 (tb.map (fun r => r.drop 512)) = shape2 (ta.map (fun r => r.drop 512)) := by
        rw [shape2_tdrop, shape2_tdrop, hb]
      have htc : shape2 (tc.map (fun r => r.drop 512)) = shape2 (ta.map (fun r => r.drop 512)) := by
        rw [shape2_tdrop, shape2_tdrop, hc]
      rw [ih (k - 511) (by omega) _ _ _ htb htc]

/-- Shape of the chunked embedding: one 768-vector per original token
position, i.e. `(B, L)` row shapes for `(B, L)`-shaped inputs. -/
theorem get_embedding_chunked_shape (bert : Encoder) (hbert : encoderOk bert)
    {B L : Nat} (hB : 0 < B) (hL : 0 < L) {ii am tt : List (List Int)}
    (hii : shape2 ii = List.replicate B L)
    (ham : shape2 am = List.replicate B L)
    (htt : shape2 tt = List.replicate B L) :
    shape2 (get_embedding bert true ii am tt) = List.replicate B L := by
  rw [get_embedding, if_pos rfl, chunk, chunk, chunk,
    dim1_of_shape2_replicate hii hB, dim1_of_shape2_replicate ham hB,
    dim1_of_shape2_replicate htt hB]
  have hhandler :
      (List.zipWith3 (fun a b c => meanLast5 (bert a b c))
        (chunkGo L ii) (chunkGo L am) (chunkGo L tt)).map shape2
      = (chunkLens L).map (fun l => List.replicate B l) := by
    rw [zipWith3_chunkGo_shape bert hbert L ii am tt (ham.trans hii.symm) (htt.trans hii.symm),
      chunkGo_shape L ii B L hii rfl]
  have hne : List.zipWith3 (fun a b c => meanLast5 (bert a b c))
      (chunkGo L ii) (chunkGo L am) (chunkGo L tt) ≠ [] := by
    intro hnil
    rw [hnil] at hhandler
    have : chunkLens L = [] := by
      cases h : chunkLens L with
      | nil => rfl
      | cons x xs => rw [h] at hhandler; simp at hhandler
    exact absurd ((chunkLens_eq_nil_iff L).1 this) (by omega)
  rw [catD1_shape _ (chunkLens L) B hhandler hne, chunkLens_sum]

/-- Shape of the non-chunked embedding: inputs are truncated to 512 columns,
so the output has `min 512 L` rows per batch element. -/
theorem get_embedding_nonchunked_shape (bert : Encoder) (hbert : encoderOk bert)
    {B L : Nat} {ii am tt : List (List Int)}
    (hii : shape2 ii = List.replicate B L) :
    shape2 (get_embedding bert false ii am tt) = List.replicate B (min 512 L) := by
  rw [get_embedding, if_neg (by simp)]
  have := shape2_meanLast5 (s := shape2 (ii.map (fun r => r.take 512)))
    (hbert (ii.map (fun r => r.take 512)) (am.map (fun r => r.take 512))
      (tt.map (fun r => r.take 512))).1
    (hbert (ii.map (fun r => r.take 512)) (am.map (fun r => r.take 512))
      (tt.map (fun r => r.take 512))).2
  rw [this, shape2_ttake, hii, List.map_replicate]

theorem ttake_append_tdrop {α : Type} (n : Nat) (t : List (List α)) :
    List.zipWith (· ++ ·) (t.map (fun r => r.take n)) (t.map (fun r => r.drop n)) = t := by
  induction t with
  | nil => rfl
  | cons r t ih =>
    simp only [List.map_cons, List.zipWith_cons_cons, List.take_append_drop, ih]

/-- Concatenating the 512-column windows back in order recovers the tensor:
the windows are consecutive, non-overlapping and exhaustive. -/
theorem catD1_chunkGo {α : Type} (cols : Nat) (t : List (List α)) (B L : Nat)
    (h : shape2 t = List.replicate B L) (hc : cols = L) (hL : 0 < L) :
    catD1 (chunkGo cols t) = t := by
  induction cols using Nat.strong_induction_on generalizing t L with
  | _ c ih =>
    match c with
    | 0 => omega
    | k + 1 =>
      rw [chunkGo]
      by_cases hsmall : k ≤ 511
      · have : k - 511 = 0 := by omega
        rw [this, chunkGo]
        show t.map (fun r => r.take 512) = t
        exact ttake_eq_self (fun r hr => by
          rw [length_of_mem_shape2_replicate h hr]; omega)
      · have hrest : chunkGo (k - 511) (t.map (fun r => r.drop 512)) ≠ [] :=
          chunkGo_ne_nil (by omega) _
        rw [catD1_cons_of_ne_nil _ hrest,
          ih (k - 511) (by omega) _ (L - 512)
            (by rw [shape2_tdrop, h, List.map_replicate]) (by omega) (by omega),
          ttake_append_tdrop]

/-- C2: for `L > 512` (the encoder returning same-length layer representations
for each window), chunked mode yields exactly `L` token-embedding rows per
batch element; the windows are consecutive non-overlapping 512-column slices,
the last possibly shorter, concatenated back in chunk order; non-chunked mode
truncates the inputs to their first 512 positions and yields exactly 512
rows. -/
theorem get_embedding_long_input (bert : Encoder) (B L : Nat)
    (ii am tt : List (List Int))
    (hbert : encoderOk bert) (hB : 0 < B) (hL : 512 < L)
    (hii : shape2 ii = List.replicate B L)
    (ham : shape2 am = List.replicate B L)
    (htt : shape2 tt = List.replicate B L) :
    shape2 (get_embedding bert true ii am tt) = List.replicate B L
    ∧ shape2 (get_embedding bert false ii am tt) = List.replicate B 512
    ∧ get_embedding bert false ii am tt
        = meanLast5 (bert (ii.map (fun r => r.take 512))
            (am.map (fun r => r.take 512)) (tt.map (fun r => r.take 512)))
    ∧ (chunk ii).map shape2 = (chunkLens L).map (fun l => List.replicate B l)
    ∧ (chunkLens L).sum = L
    ∧ (∀ j, j + 1 < (chunkLens L).length → (chunkLens L)[j]? = some 512)
    ∧ (∀ x ∈ chunkLens L, 0 < x ∧ x ≤ 512)
    ∧ catD1 (chunk ii) = ii := by
  refine ⟨get_embedding_chunked_shape bert hbert hB (by omega) hii ham htt, ?_, ?_, ?_,
    chunkLens_sum L, chunkLens_all_but_last L, chunkLens_pos_le L, ?_⟩
  · rw [get_embedding_nonchunked_shape bert hbert hii]
    have : min 512 L = 512 := by omega
    rw [this]
  · rw [get_embedding, if_neg (by simp)]
  · rw [chunk, dim1_of_shape2_replicate hii hB, chunkGo_shape L ii B L hii rfl]
  · rw [chunk, dim1_of_shape2_replicate hii hB,
      catD1_chunkGo L ii B L hii rfl (by omega)]

theorem shape2_map_inner {α β : Type} (a : List (List α)) (f : α → β) :
    shape2 (a.map (fun r => r.map f)) = shape2 a := by
  induction a with
  | nil => rfl
  | cons r a ih => simp only [List.map_cons, shape2_cons, List.length_map, ih]

/-- A concrete shape-correct encoder used by the witnesses: a single hidden
layer mapping each token id to the 1-dimensional embedding holding it. -/
def idEncoder : Encoder :=
  fun a _ _ => [a.map (fun r => r.map (fun (v : Int) => [(v : ℚ)]))]

theorem idEncoder_ok : encoderOk idEncoder := by
  intro a b c
  refine ⟨by simp [idEncoder], ?_⟩
  intro l hl
  simp only [idEncoder, List.mem_singleton] at hl
  subst hl
  exact shape2_map_inner a _

/-- Witness for C2 at a one-row batch of length 513. -/
theorem get_embedding_long_input_witness :
    (encoderOk idEncoder ∧ 0 < 1 ∧ 512 < 513
      ∧ shape2 [List.replicate 513 (7 : Int)] = List.replicate 1 513)
    ∧ (shape2 (get_embedding idEncoder true [List.replicate 513 (7 : Int)]
          [List.replicate 513 1] [List.replicate 513 0]) = List.replicate 1 513
        ∧ shape2 (get_embedding idEncoder false [List.replicate 513 (7 : Int)]
            [List.replicate 513 1] [List.replicate 513 0]) = List.replicate 1 512
        ∧ get_embedding idEncoder false [List.replicate 513 (7 : Int)]
            [List.replicate 513 1] [List.replicate 513 0]
          = meanLast5 (idEncoder ([List.replicate 513 (7 : Int)].map (fun r => r.take 512))
              ([List.replicate 513 (1 : Int)].map (fun r => r.take 512))
              ([List.replicate 513 (0 : Int)].map (fun r => r.take 512)))
        ∧ (chunk [List.replicate 513 (7 : Int)]).map shape2
            = (chunkLens 513).map (fun l => List.replicate 1 l)
        ∧ (chunkLens 513).sum = 513
        ∧ (∀ j, j + 1 < (chunkLens 513).length → (chunkLens 513)[j]? = some 512)
        ∧ (∀ x ∈ chunkLens 513, 0 < x ∧ x ≤ 512)
        ∧ catD1 (chunk [List.replicate 513 (7 : Int)]) = [List.replicate 513 (7 : Int)]) :=
  ⟨⟨idEncoder_ok, Nat.one_pos, by omega,
      by simp only [shape2, List.map_cons, List.map_nil, List.length_replicate,
        List.replicate_one]⟩,
    get_embedding_long_input idEncoder 1 513 _ _ _ idEncoder_ok Nat.one_pos (by omega)
      (by simp only [shape2, List.map_cons, List.map_nil, List.length_replicate,
        List.replicate_one])
      (by simp only [shape2, List.map_cons, List.map_nil, List.length_replicate,
        List.replicate_one])
      (by simp only [shape2, List.map_cons, List.map_nil, List.length_replicate,
        List.replicate_one])⟩

/-! ## Per-window views of a tensor (claim C6) -/

/-- The `k`-th 512-column window of a 2-D tensor: columns
`[512*k, 512*k + 512)` of every row. -/
def twindow {α : Type} (k : Nat) (t : List (List α)) : List (List α) :=
  t.map (fun r => (r.drop (512 * k)).take 512)

theorem twindow_zero {α : Type} (t : List (List α)) :
    twindow 0 t = t.map (fun r => r.take 512) := by
  simp [twindow]

theorem twindow_tdrop {α : Type} (k : Nat) (t : List (List α)) :
    twindow k (t.map (fun r => r.drop 512)) = twindow (k + 1) t := by
  induction t with
  | nil => rfl
  | cons r t ih =>
    simp only [twindow, List.map_cons, List.map_map] at ih ⊢
    refine congrArg₂ _ ?_ (by simpa [twindow] using ih)
    rw [List.drop_drop, Nat.mul_succ]
    ring_nf

theorem chunkGo_getElem_twindow {α : Type} (cols : Nat) (t : List (List α)) (k : Nat)
    (hk : k < (chunkGo cols t).length) :
    (chunkGo cols t)[k]? = some (twindow k t) := by
  induction cols using Nat.strong_induction_on generalizing t k with
  | _ c ih =>
    match c with
    | 0 => rw [chunkGo] at hk; simp at hk
    | m + 1 =>
      rw [chunkGo] at hk ⊢
      match k with
      | 0 => rw [List.getElem?_cons_zero, twindow_zero]
      | k + 1 =>
        rw [List.getElem?_cons_succ,
          ih (m - 511) (by omega) _ k (by simpa using hk), twindow_tdrop]

theorem zipWith3_getElem {α₁ α₂ α₃ β : Type} (f : α₁ → α₂ → α₃ → β) :
    ∀ (as : List α₁) (bs : List α₂) (cs : List α₃) (k : Nat) (a : α₁) (b : α₂) (c : α₃),
    as[k]? = some a → bs[k]? = some b → cs[k]? = some c →
    (List.zipWith3 f as bs cs)[k]? = some (f a b c) := by
  intro as
  induction as with
  | nil => intro bs cs k a b c ha; simp at ha
  | cons x as ih =>
    intro bs cs k a b c ha hb hc
    cases bs with
    | nil => simp at hb
    | cons y bs =>
      cases cs with
      | nil => simp at hc
      | cons z cs =>
        match k with
        | 0 =>
          rw [List.getElem?_cons_zero] at ha hb hc
          simp only [List.zipWith3, List.getElem?_cons_zero]
          rw [Option.some.inj ha, Option.some.inj hb, Option.some.inj hc]
        | k + 1 =>
          rw [List.getElem?_cons_succ] at ha hb hc
          simp only [List.zipWith3, List.getElem?_cons_succ]
          exact ih bs cs k a b c ha hb hc

theorem ttake512_zipWith_append {α : Type} :
    ∀ (w Y : List (List α)) (B : Nat), shape2 w = List.replicate B 512 →
    Y.length = B → (List.zipWith (· ++ ·) w Y).map (fun r => r.take 512) = w := by
  intro w
  induction w with
  | nil => intro Y B _ _; rfl
  | cons a w ih =>
    intro Y B hsh hY
    cases B with
    | zero => simp [shape2] at hsh
    | succ B' =>
      rw [List.replicate_succ] at hsh
      obtain ⟨ha, hw⟩ := List.cons.inj hsh
      cases Y with
      | nil => simp at hY
      | cons y Y' =>
        rw [List.zipWith_cons_cons, List.map_cons, List.take_left' ha,
          ih Y' B' hw (by simpa using hY)]

theorem twindow_succ_zipWith {α : Type} (k : Nat) :
    ∀ (w Y : List (List α)) (B : Nat), shape2 w = List.replicate B 512 →
    Y.length = B → twindow (k + 1) (List.zipWith (· ++ ·) w Y) = twindow k Y := by
  intro w
  induction w with
  | nil =>
    intro Y B hsh hY
    rw [shape2_nil] at hsh
    have : B = 0 := by
      cases B with
      | zero => rfl
      | succ _ => simp at hsh
    subst this
    rw [List.length_eq_zero.1 hY]
    rfl
  | cons a w ih =>
    intro Y B hsh hY
    cases B with
    | zero => simp [shape2] at hsh
    | succ B' =>
      rw [List.replicate_succ] at hsh
      obtain ⟨ha, hw⟩ := List.cons.inj hsh
      cases Y with
      | nil => simp at hY
      | cons y Y' =>
        rw [List.zipWith_cons_cons]
        simp only [twindow, List.map_cons]
        refine congrArg₂ _ ?_ ?_
        · rw [Nat.mul_succ, Nat.add_comm (512 * k) 512, ← List.drop_drop,
            List.drop_left' ha]
        · simpa [twindow] using ih Y' B' hw (by simpa using hY)

/-- Extracting the `k`-th window of a dim-1 concatenation whose pieces before
the last all have exactly 512 columns recovers the `k`-th piece. -/
theorem twindow_catD1 {α : Type} :
    ∀ (us : List (List (List α))) (lens : List Nat) (B k : Nat) (u : List (List α)),
    us.map shape2 = lens.map (fun l => List.replicate B l) →
    (∀ j, j + 1 < lens.length → lens[j]? = some 512) →
    (∀ x ∈ lens, x ≤ 512) →
    us[k]? = some u → twindow k (catD1 us) = u := by
  intro us
  induction us with
  | nil => intro lens B k u _ _ _ hk; simp at hk
  | cons w us' ih =>
    intro lens B k u hmap h512 hle hk
    cases lens with
    | nil => simp at hmap
    | cons l0 lens' =>
      rw [List.map_cons, List.map_cons] at hmap
      obtain ⟨hw, hus⟩ := List.cons.inj hmap
      cases us' with
      | nil =>
        match k with
        | 0 =>
          rw [List.getElem?_cons_zero] at hk
          rw [← Option.some.inj hk]
          show twindow 0 (catD1 [w]) = w
          rw [twindow_zero]
          exact ttake_eq_self (fun r hr => by
            rw [length_of_mem_shape2_replicate hw hr]
            exact hle l0 (by simp))
        | k + 1 => rw [List.getElem?_cons_succ] at hk; simp at hk
      | cons v rest =>
        have hlens' : lens' ≠ [] := by
          intro hnil
          rw [hnil] at hus
          simp at hus
        have hl0 : l0 = 512 := by
          have h2 : 0 + 1 < (l0 :: lens').length := by
            cases lens' with
            | nil => exact absurd rfl hlens'
            | cons _ _ => simp
          have := h512 0 h2
          rw [List.getElem?_cons_zero] at this
          exact Option.some.inj this
        have hY : (catD1 (v :: rest)).length = B := by
          have hsh := catD1_shape (v :: rest) lens' B hus (by simp)
          have := shape2_length (catD1 (v :: rest))
          rw [hsh] at this
          simpa using this.symm
        rw [catD1_cons_of_ne_nil _ (by simp)]
        match k with
        | 0 =>
          rw [List.getElem?_cons_zero] at hk
          rw [← Option.some.inj hk, twindow_zero]
          exact ttake512_zipWith_append w _ B (hl0 ▸ hw) hY
        | k + 1 =>
          rw [List.getElem?_cons_succ] at hk
          rw [twindow_succ_zipWith k w _ B (hl0 ▸ hw) hY]
          refine ih lens' B k u hus ?_ ?_ hk
          · intro j hj
            have h2 : (j + 1) + 1 < (l0 :: lens').length := by simpa using Nat.succ_lt_succ hj
            have := h512 (j + 1) h2
            rwa [List.getElem?_cons_succ] at this
          · exact fun x hx => hle x (by simp [hx])

/-- A window entirely past the end of a `(B, L)`-shaped tensor is a batch of
empty rows. -/
theorem twindow_beyond {α : Type} {t : List (List α)} {B L k : Nat}
    (h : shape2 t = List.replicate B L) (hk : L ≤ 512 * k) :
    twindow k t = List.replicate B [] := by
  have hlen : t.length = B := by
    have := shape2_length t
    rw [h] at this
    simpa using this.symm
  refine List.eq_replicate_iff.2 ⟨by simp [twindow, hlen], ?_⟩
  intro x hx
  obtain ⟨r, hr, rfl⟩ := List.mem_map.1 hx
  rw [List.drop_eq_nil_of_le (by rw [length_of_mem_shape2_replicate h hr]; omega)]
  rfl

/-- C6: no representation mixing across chunk boundaries.  For two batches of
equal `(B, L)` shape that agree on every token position (ids, mask, segment
markers) inside the `k`-th 512-token window, chunked `get_embedding` produces
identical embeddings at every position of that window, whatever the other
windows hold. -/
theorem get_embedding_window_noninterference (bert : Encoder) (B L k : Nat)
    (ii am tt ii' am' tt' : List (List Int))
    (hbert : encoderOk bert) (hB : 0 < B) (hL : 0 < L)
    (hii : shape2 ii = List.replicate B L)
    (ham : shape2 am = List.replicate B L)
    (htt : shape2 tt = List.replicate B L)
    (hii' : shape2 ii' = List.replicate B L)
    (ham' : shape2 am' = List.replicate B L)
    (htt' : shape2 tt' = List.replicate B L)
    (ei : twindow k ii = twindow k ii')
    (ea : twindow k am = twindow k am')
    (et : twindow k tt = twindow k tt') :
    twindow k (get_embedding bert true ii am tt)
      = twindow k (get_embedding bert true ii' am' tt') := by
  by_cases hk : 512 * k < L
  · have key : ∀ (a b c : List (List Int)), shape2 a = List.replicate B L →
        shape2 b = List.replicate B L → shape2 c = List.replicate B L →
        twindow k (get_embedding bert true a b c)
          = meanLast5 (bert (twindow k a) (twindow k b) (twindow k c)) := by
      intro a b c ha hb hc
      rw [get_embedding, if_pos rfl, chunk, chunk, chunk,
        dim1_of_shape2_replicate ha hB, dim1_of_shape2_replicate hb hB,
        dim1_of_shape2_replicate hc hB]
      have hka : k < (chunkGo L a).length := by
        rw [chunkGo_length, chunkLens_length]; omega
      have hkb : k < (chunkGo L b).length := by
        rw [chunkGo_length, chunkLens_length]; omega
      have hkc : k < (chunkGo L c).length := by
        rw [chunkGo_length, chunkLens_length]; omega
      refine twindow_catD1 _ (chunkLens L) B k _ ?_ (chunkLens_all_but_last L)
        (fun x hx => (chunkLens_pos_le L x hx).2) ?_
      · rw [zipWith3_chunkGo_shape bert hbert L a b c (hb.trans ha.symm) (hc.trans ha.symm),
          chunkGo_shape L a B L ha rfl]
      · exact zipWith3_getElem _ _ _ _ k _ _ _
          (chunkGo_getElem_twindow L a k hka)
          (chunkGo_getElem_twindow L b k hkb)
          (chunkGo_getElem_twindow L c k hkc)
    rw [key ii am tt hii ham htt, key ii' am' tt' hii' ham' htt', ei, ea, et]
  · have h1 := get_embedding_chunked_shape bert hbert hB hL hii ham htt
    have h2 := get_embedding_chunked_shape bert hbert hB hL hii' ham' htt'
    rw [twindow_beyond h1 (by omega), twindow_beyond h2 (by omega)]

set_option maxRecDepth 10000 in
/-- Witness for C6: two one-row batches of length 513 agreeing on window 0
and differing at position 512. -/
theorem get_embedding_window_noninterference_witness :
    (encoderOk idEncoder ∧ 0 < 1 ∧ 0 < 513
      ∧ shape2 [List.replicate 512 (5 : Int) ++ [9]] = List.replicate 1 513
      ∧ shape2 [List.replicate 512 (5 : Int) ++ [7]] = List.replicate 1 513
      ∧ twindow 0 [List.replicate 512 (5 : Int) ++ [9]]
          = twindow 0 [List.replicate 512 (5 : Int) ++ [7]])
    ∧ twindow 0 (get_embedding idEncoder true [List.replicate 512 (5 : Int) ++ [9]]
          [List.replicate 513 1] [List.replicate 513 0])
      = twindow 0 (get_embedding idEncoder true [List.replicate 512 (5 : Int) ++ [7]]
          [List.replicate 513 1] [List.replicate 513 0]) :=
  ⟨⟨idEncoder_ok, Nat.one_pos, by omega, by decide, by decide, by decide⟩,
    get_embedding_window_noninterference idEncoder 1 513 0 _ _ _ _ _ _
      idEncoder_ok Nat.one_pos (by omega)
      (by decide) (by decide) (by decide) (by decide) (by decide) (by decide)
      (by decide) (by decide) (by decide)⟩

/-! ## Label expansion (claims C5 and C9) -/

/-- `torch.argmax` on a 2-class vector: the index of the maximum, the first
index on ties. -/
def argmax2 (p : List ℚ) : Nat :=
  match p with
  | [a, b] => if a < b then 1 else 0
  | _ => 0

/-- Recovering a scalar binary label from an expanded 2-vector by argmax:
class index 0 is the "in summary" class, i.e. label 1. -/
def recoverLabel (p : List ℚ) : ℚ := if argmax2 p = 0 then 1 else 0

theorem expand_targets_eq_flatten_map (ts : List (List ℚ)) :
    expand_targets ts
      = ts.flatten.map (fun v => if v ≠ 0 then [(1 : ℚ), 0] else [0, 1]) := by
  rw [expand_targets, ← List.map_flatten, List.map_map]
  refine List.map_congr_left ?_
  intro v _
  by_cases hv : v = 0 <;> simp [hv]

/-- C5: label expansion maps the scalar binary label 1 to `[1,0]` and 0 to
`[0,1]` (the "in summary" class first), and the expansion is self-inverse:
taking the argmax of each expanded 2-vector recovers the original boolean
labels exactly. -/
theorem expand_targets_round_trip (ts : List (List ℚ))
    (hne : ts.flatten ≠ [])
    (hb : ∀ v ∈ ts.flatten, v = 0 ∨ v = 1) :
    expand_targets ts
      = ts.flatten.map (fun v => if v = 1 then [(1 : ℚ), 0] else [0, 1])
    ∧ (expand_targets ts).map recoverLabel = ts.flatten := by
  rw [expand_targets_eq_flatten_map]
  constructor
  · refine List.map_congr_left ?_
    intro v hv
    rcases hb v hv with rfl | rfl
    · norm_num
    · norm_num
  · rw [List.map_map]
    have : ∀ v ∈ ts.flatten,
        (recoverLabel ∘ fun v => if v ≠ 0 then [(1 : ℚ), 0] else [0, 1]) v = id v := by
      intro v hv
      rcases hb v hv with rfl | rfl
      · simp [recoverLabel, argmax2]
      · norm_num [recoverLabel, argmax2]
    rw [List.map_congr_left this, List.map_id]

/-- Witness for C5 at the boolean targets `[[1],[0]]`. -/
theorem expand_targets_round_trip_witness :
    (([[(1 : ℚ)], [0]] : List (List ℚ)).flatten ≠ []
      ∧ ∀ v ∈ ([[(1 : ℚ)], [0]] : List (List ℚ)).flatten, v = 0 ∨ v = 1)
    ∧ (expand_targets [[(1 : ℚ)], [0]]
        = ([[(1 : ℚ)], [0]] : List (List ℚ)).flatten.map
            (fun v => if v = 1 then [(1 : ℚ), 0] else [0, 1])
      ∧ (expand_targets [[(1 : ℚ)], [0]]).map recoverLabel
          = ([[(1 : ℚ)], [0]] : List (List ℚ)).flatten) :=
  ⟨⟨by decide, by decide⟩,
    expand_targets_round_trip [[(1 : ℚ)], [0]] (by decide) (by decide)⟩

/-- C9: `expand_targets` coerces every target value to a boolean before
expansion (`targets.bool()`), so every nonzero value — not only exactly 1 —
expands to the positive-class vector `[1,0]`, and only exactly-zero targets
expand to `[0,1]`. -/
theorem expand_targets_nonzero_coercion (ts : List (List ℚ))
    (hne : ts.flatten ≠ []) :
    expand_targets ts
      = ts.flatten.map (fun v => if v = 0 then ([0, 1] : List ℚ) else [1, 0]) := by
  rw [expand_targets_eq_flatten_map]
  refine List.map_congr_left ?_
  intro v _
  by_cases hv : v = 0 <;> simp [hv]

/-- Witness for C9 at targets holding a negative, a zero and a non-unit
positive value. -/
theorem expand_targets_nonzero_coercion_witness :
    (([[(-1 : ℚ), 0, 5]] : List (List ℚ)).flatten ≠ [])
    ∧ expand_targets [[(-1 : ℚ), 0, 5]]
        = ([[(-1 : ℚ), 0, 5]] : List (List ℚ)).flatten.map
            (fun v => if v = 0 then ([0, 1] : List ℚ) else [1, 0]) :=
  ⟨by decide, expand_targets_nonzero_coercion [[(-1 : ℚ), 0, 5]] (by decide)⟩

/-! ## Batch collation (claim C4) -/

theorem foldl_max_init_le (l : List Nat) (a : Nat) : a ≤ l.foldl max a := by
  induction l generalizing a with
  | nil => simp
  | cons x l ih => exact le_trans (le_max_left a x) (ih (max a x))

theorem le_foldl_max (l : List Nat) (a : Nat) : ∀ x ∈ l, x ≤ l.foldl max a := by
  induction l generalizing a with
  | nil => simp
  | cons y l ih =>
    intro x hx
    rcases List.mem_cons.1 hx with rfl | h
    · exact le_trans (le_max_right a x) (foldl_max_init_le l (max a x))
    · exact ih (max a y) x h

theorem mapM_option_eq_some_map {α β : Type} (f : α → Option β) (g : α → β) :
    ∀ (xs : List α), (∀ x ∈ xs, f x = some (g x)) → xs.mapM f = some (xs.map g) := by
  intro xs
  induction xs with
  | nil => intro _; rfl
  | cons x xs ih =>
    intro h
    rw [List.mapM_cons, h x (by simp), ih (fun y hy => h y (by simp [hy])), List.map_cons]
    rfl

/-- C4: for a non-empty batch of `N` tokenized examples whose three parallel
sequences have the `input_ids` lengths `l_i`, `collate` succeeds and returns
four fields of shape `(N, max l_i)`; `input_ids`, `attention_mask` and
`targets` hold each example's values in their first `l_i` positions and zeros
beyond; `token_type_ids` is a fresh all-zero tensor not propagated from the
examples.  `input_ids`/`attention_mask` stay integer-typed and `targets`
stays a float tensor. -/
theorem collate_pads_and_stacks (batch : List TokExQ) (hne : batch ≠ [])
    (hlen : ∀ d ∈ batch, d.attention_mask.length = d.input_ids.length
      ∧ d.targets.length = d.input_ids.length) :
    ∃ out, collate batch = some out
    ∧ shape2 out.input_ids
        = List.replicate batch.length ((batch.map (fun item => item.input_ids.length)).foldl max 0)
    ∧ shape2 out.attention_mask
        = List.replicate batch.length ((batch.map (fun item => item.input_ids.length)).foldl max 0)
    ∧ shape2 out.token_type_ids
        = List.replicate batch.length ((batch.map (fun item => item.input_ids.length)).foldl max 0)
    ∧ shape2 out.targets
        = List.replicate batch.length ((batch.map (fun item => item.input_ids.length)).foldl max 0)
    ∧ out.input_ids = batch.map (fun d => d.input_ids
        ++ List.replicate ((batch.map (fun item => item.input_ids.length)).foldl max 0
            - d.input_ids.length) 0)
    ∧ out.attention_mask = batch.map (fun d => d.attention_mask
        ++ List.replicate ((batch.map (fun item => item.input_ids.length)).foldl max 0
            - d.attention_mask.length) 0)
    ∧ out.targets = batch.map (fun d => d.targets
        ++ List.replicate ((batch.map (fun item => item.input_ids.length)).foldl max 0
            - d.targets.length) 0)
    ∧ out.token_type_ids = List.replicate batch.length
        (List.replicate ((batch.map (fun item => item.input_ids.length)).foldl max 0) 0) := by
  obtain ⟨d0, rest, rfl⟩ := List.exists_cons_of_ne_nil hne
  set M := (((d0 :: rest).map (fun item => item.input_ids.length)).foldl max 0) with hM
  have hle : ∀ d ∈ d0 :: rest, d.input_ids.length ≤ M :=
    fun d hd => le_foldl_max _ 0 _ (List.mem_map.2 ⟨d, hd, rfl⟩)
  have hii : (d0 :: rest).mapM (fun datum => padTo M (0 : Int) datum.input_ids)
      = some ((d0 :: rest).map (fun d => d.input_ids
          ++ List.replicate (M - d.input_ids.length) 0)) :=
    mapM_option_eq_some_map _ _ _ (fun d hd => by
      rw [padTo, if_pos (hle d hd)])
  have ham : (d0 :: rest).mapM (fun datum => padTo M (0 : Int) datum.attention_mask)
      = some ((d0 :: rest).map (fun d => d.attention_mask
          ++ List.replicate (M - d.attention_mask.length) 0)) :=
    mapM_option_eq_some_map _ _ _ (fun d hd => by
      rw [padTo, if_pos (((hlen d hd).1).le.trans (hle d hd))])
  have htg : (d0 :: rest).mapM (fun datum => padTo M (0 : ℚ) datum.targets)
      = some ((d0 :: rest).map (fun d => d.targets
          ++ List.replicate (M - d.targets.length) 0)) :=
    mapM_option_eq_some_map _ _ _ (fun d hd => by
      rw [padTo, if_pos (((hlen d hd).2).le.trans (hle d hd))])
  refine ⟨{ input_ids := (d0 :: rest).map (fun d => d.input_ids
              ++ List.replicate (M - d.input_ids.length) 0)
          , attention_mask := (d0 :: rest).map (fun d => d.attention_mask
              ++ List.replicate (M - d.attention_mask.length) 0)
          , token_type_ids := List.replicate (d0 :: rest).length (List.replicate M 0)
          , targets := (d0 :: rest).map (fun d => d.targets
              ++ List.replicate (M - d.targets.length) 0) },
    ?_, ?_, ?_, ?_, ?_, rfl, rfl, rfl, rfl⟩
  · show collate (d0 :: rest) = _
    rw [collate]
    · rw [← hM, hii, ham, htg]
      rfl
    · exact List.cons_ne_nil d0 rest
  · refine List.eq_replicate_iff.2 ⟨by simp [shape2], ?_⟩
    intro b hb
    simp only [shape2, List.map_map, List.mem_map, Function.comp] at hb
    obtain ⟨d, hd, rfl⟩ := hb
    rw [List.length_append, List.length_replicate]
    have := hle d hd
    omega
  · refine List.eq_replicate_iff.2 ⟨by simp [shape2], ?_⟩
    intro b hb
    simp only [shape2, List.map_map, List.mem_map, Function.comp] at hb
    obtain ⟨d, hd, rfl⟩ := hb
    rw [List.length_append, List.length_replicate]
    have h1 := (hlen d hd).1
    have := hle d hd
    omega
  · rw [shape2, List.map_replicate, List.length_replicate]
  · refine List.eq_replicate_iff.2 ⟨by simp [shape2], ?_⟩
    intro b hb
    simp only [shape2, List.map_map, List.mem_map, Function.comp] at hb
    obtain ⟨d, hd, rfl⟩ := hb
    rw [List.length_append, List.length_replicate]
    have h1 := (hlen d hd).2
    have := hle d hd
    omega

/-- Witness for C4 at a two-example batch with lengths 2 and 1. -/
theorem collate_pads_and_stacks_witness :
    (([⟨[4, 5], [0, 0], [1, 1], [1, 1]⟩, ⟨[6], [0], [1], [0]⟩] : List TokExQ) ≠ []
      ∧ ∀ d ∈ ([⟨[4, 5], [0, 0], [1, 1], [1, 1]⟩, ⟨[6], [0], [1], [0]⟩] : List TokExQ),
          d.attention_mask.length = d.input_ids.length
          ∧ d.targets.length = d.input_ids.length)
    ∧ ∃ out, collate [⟨[4, 5], [0, 0], [1, 1], [1, 1]⟩, ⟨[6], [0], [1], [0]⟩] = some out
        ∧ shape2 out.input_ids = List.replicate 2 2
        ∧ shape2 out.attention_mask = List.replicate 2 2
        ∧ shape2 out.token_type_ids = List.replicate 2 2
        ∧ shape2 out.targets = List.replicate 2 2
        ∧ out.input_ids = [[4, 5], [6, 0]]
        ∧ out.attention_mask = [[1, 1], [1, 0]]
        ∧ out.targets = [[1, 1], [0, 0]]
        ∧ out.token_type_ids = [[0, 0], [0, 0]] := by
  refine ⟨⟨by decide, by decide⟩, ?_⟩
  obtain ⟨out, h1, h2, h3, h4, h5, h6, h7, h8, h9⟩ :=
    collate_pads_and_stacks [⟨[4, 5], [0, 0], [1, 1], [1, 1]⟩, ⟨[6], [0], [1], [0]⟩]
      (by decide) (by decide)
  exact ⟨out, h1, by simpa using h2, by simpa using h3, by simpa using h4,
    by simpa using h5, by simpa using h6, by simpa using h7, by simpa using h8,
    by simpa using h9⟩

/-! ## Label reshaping in the step methods (claim C8) -/

theorem shape2_refill2 {α : Type} :
    ∀ (m : List (List α)) (xs : List ℚ), numel2 m ≤ xs.length →
    shape2 (refill2 m xs) = shape2 m := by
  intro m
  induction m with
  | nil => intro xs _; rfl
  | cons r rest ih =>
    intro xs h
    rw [numel2, List.map_cons, List.sum_cons] at h
    rw [refill2, shape2_cons, shape2_cons]
    have hr : (xs.take r.length).length = r.length := by
      rw [List.length_take]
      have : (rest.map List.length).sum = numel2 rest := rfl
      omega
    rw [hr]
    refine congrArg _ (ih _ ?_)
    rw [List.length_drop]
    have : (rest.map List.length).sum = numel2 rest := rfl
    omega

theorem shape3_refill3 {α : Type} :
    ∀ (sh : List (List (List α))) (xs : List ℚ), numel3 sh ≤ xs.length →
    shape3 (refill3 sh xs) = shape3 sh := by
  intro sh
  induction sh with
  | nil => intro xs _; rfl
  | cons m rest ih =>
    intro xs h
    rw [numel3, List.map_cons, List.sum_cons] at h
    rw [refill3, shape3, List.map_cons, shape3, List.map_cons]
    have h1 : numel2 m ≤ (xs.take (numel2 m)).length := by
      rw [List.length_take]
      have : (rest.map numel2).sum = numel3 rest := rfl
      omega
    rw [shape2_refill2 m _ h1]
    refine congrArg _ ?_
    have := ih (xs.drop (numel2 m)) (by
      rw [List.length_drop]
      have : (rest.map numel2).sum = numel3 rest := rfl
      omega)
    simpa [shape3] using this

/-- C8: in every training/validation/test step the expanded labels are
reshaped to exactly the output tensor's shape before the loss is computed,
and when the label element count does not match the output element count the
step fails loudly (`reshape_as` raises, modelled as `none`) instead of
silently broadcasting, padding or truncating. -/
theorem step_label_reshape (bert : Encoder) (enable_chunk : Bool)
    (W : List (List ℚ)) (b : List ℚ) (softmaxF : List ℚ → List ℚ)
    (criterion : Criterion) (auc : AucMetric) (batch : BatchOut) :
    (let outT := forward bert enable_chunk W b softmaxF
        batch.input_ids batch.attention_mask batch.token_type_ids true
     let lbl := (expand_targets batch.targets).flatten
     (lbl.length = numel3 outT →
        training_step bert enable_chunk W b softmaxF criterion auc batch
          = some (criterion outT (refill3 outT lbl), outT, refill3 outT lbl,
              auc outT (intT3 (refill3 outT lbl)))
        ∧ shape3 (refill3 outT lbl) = shape3 outT)
     ∧ (lbl.length ≠ numel3 outT →
        training_step bert enable_chunk W b softmaxF criterion auc batch = none))
    ∧ (let outE := forward bert enable_chunk W b softmaxF
        batch.input_ids batch.attention_mask batch.token_type_ids false
       let lbl := (expand_targets batch.targets).flatten
       (lbl.length = numel3 outE →
          validation_step bert enable_chunk W b softmaxF criterion auc batch
            = some (criterion outE (refill3 outE lbl))
          ∧ shape3 (refill3 outE lbl) = shape3 outE)
       ∧ (lbl.length ≠ numel3 outE →
          validation_step bert enable_chunk W b softmaxF criterion auc batch = none))
    ∧ (let outE := forward bert enable_chunk W b softmaxF
        batch.input_ids batch.attention_mask batch.token_type_ids false
       let lbl := (expand_targets batch.targets).flatten
       (lbl.length = numel3 outE →
          test_step bert enable_chunk W b softmaxF criterion auc batch
            = some (criterion outE (refill3 outE lbl))
          ∧ shape3 (refill3 outE lbl) = shape3 outE)
       ∧ (lbl.length ≠ numel3 outE →
          test_step bert enable_chunk W b softmaxF criterion auc batch = none)) := by
  refine ⟨⟨fun h => ⟨?_, shape3_refill3 _ _ (le_of_eq h.symm)⟩, fun h => ?_⟩,
    ⟨fun h => ⟨?_, shape3_refill3 _ _ (le_of_eq h.symm)⟩, fun h => ?_⟩,
    ⟨fun h => ⟨?_, shape3_refill3 _ _ (le_of_eq h.symm)⟩, fun h => ?_⟩⟩
  · rw [training_step, reshape_as, if_pos h]
  · rw [training_step, reshape_as, if_neg h]
  · rw [validation_step, reshape_as, if_pos h]
  · rw [validation_step, reshape_as, if_neg h]
  · rw [test_step, reshape_as, if_pos h]
  · rw [test_step, reshape_as, if_neg h]

/-- The trivial encoder returning no hidden layers, used by the C8 witness. -/
def nilEncoder : Encoder := fun _ _ _ => []

/-- Constant-zero loss stand-in, used by the C8 witness. -/
def czero : Criterion := fun _ _ => 0

/-- Constant-zero AUROC stand-in, used by the C8 witness. -/
def azero : AucMetric := fun _ _ => 0

/-- Witness for C8: with no trainable head the outputs are empty, the two
expanded label entries cannot be reshaped onto them, and every step fails. -/
theorem step_label_reshape_witness :
    (expand_targets [[(1 : ℚ)]]).flatten.length
        ≠ numel3 (forward nilEncoder false [] [] id [[3]] [[1]] [[0]] true)
    ∧ (expand_targets [[(1 : ℚ)]]).flatten.length
        ≠ numel3 (forward nilEncoder false [] [] id [[3]] [[1]] [[0]] false)
    ∧ training_step nilEncoder false [] [] id czero azero
        ⟨[[3]], [[1]], [[0]], [[(1 : ℚ)]]⟩ = none
    ∧ validation_step nilEncoder false [] [] id czero azero
        ⟨[[3]], [[1]], [[0]], [[(1 : ℚ)]]⟩ = none
    ∧ test_step nilEncoder false [] [] id czero azero
        ⟨[[3]], [[1]], [[0]], [[(1 : ℚ)]]⟩ = none :=
  ⟨by decide, by decide,
    (step_label_reshape nilEncoder false [] [] id czero azero
      ⟨[[3]], [[1]], [[0]], [[(1 : ℚ)]]⟩).1.2 (by decide),
    (step_label_reshape nilEncoder false [] [] id czero azero
      ⟨[[3]], [[1]], [[0]], [[(1 : ℚ)]]⟩).2.1.2 (by decide),
    (step_label_reshape nilEncoder false [] [] id czero azero
      ⟨[[3]], [[1]], [[0]], [[(1 : ℚ)]]⟩).2.2.2 (by decide)⟩

/-! ## Grouping keys (claims C3, C7, C10) -/

theorem mem_insertSorted (x a : Nat) : ∀ (l : List Nat), x ∈ insertSorted a l ↔ x = a ∨ x ∈ l := by
  intro l
  induction l with
  | nil => simp [insertSorted]
  | cons y ys ih =>
    rw [insertSorted]
    by_cases h : a ≤ y
    · simp [if_pos h]
    · rw [if_neg h]
      simp only [List.mem_cons, ih]
      tauto

theorem insertSorted_perm (a : Nat) : ∀ (l : List Nat), List.Perm (insertSorted a l) (a :: l) := by
  intro l
  induction l with
  | nil => rfl
  | cons y ys ih =>
    rw [insertSorted]
    by_cases h : a ≤ y
    · rw [if_pos h]
    · rw [if_neg h]
      exact (List.Perm.cons y ih).trans (List.Perm.swap a y ys)

theorem sortKeys_perm : ∀ (l : List Nat), List.Perm (sortKeys l) l := by
  intro l
  induction l with
  | nil => rfl
  | cons x xs ih =>
    rw [sortKeys, List.foldr_cons]
    exact (insertSorted_perm x (sortKeys xs)).trans (List.Perm.cons x ih)

theorem mem_uniqueSortedKeys (x : Nat) (l : List Nat) :
    x ∈ uniqueSortedKeys l ↔ x ∈ l := by
  rw [uniqueSortedKeys]
  rw [(sortKeys_perm l.dedup).mem_iff]
  exact List.mem_dedup

theorem nodup_uniqueSortedKeys (l : List Nat) : (uniqueSortedKeys l).Nodup := by
  rw [uniqueSortedKeys]
  exact ((sortKeys_perm l.dedup).nodup_iff).2 (List.nodup_dedup l)

theorem dedup_const : ∀ (l : List Nat) (c : Nat), l ≠ [] → (∀ x ∈ l, x = c) → l.dedup = [c] := by
  intro l
  induction l with
  | nil => intro c h _; exact absurd rfl h
  | cons x xs ih =>
    intro c _ h
    have hx : x = c := h x (by simp)
    cases xs with
    | nil =>
      rw [hx, List.dedup_cons_of_not_mem (by simp), List.dedup_nil]
    | cons y ys =>
      have hmem : x ∈ y :: ys := by
        rw [hx, ← h y (by simp)]
        simp
      rw [List.dedup_cons_of_mem hmem,
        ih c (by simp) (fun z hz => h z (by simp [hz]))]

theorem uniqueSortedKeys_const {l : List Nat} {c : Nat}
    (hne : l ≠ []) (h : ∀ x ∈ l, x = c) : uniqueSortedKeys l = [c] := by
  rw [uniqueSortedKeys, dedup_const l c hne h]
  rfl

theorem mapM_option_isSome {α β : Type} (f : α → Option β) :
    ∀ (xs : List α), (∀ x ∈ xs, (f x).isSome) →
    ∃ ys, xs.mapM f = some ys ∧ List.Forall₂ (fun x y => f x = some y) xs ys := by
  intro xs
  induction xs with
  | nil => intro _; exact ⟨[], rfl, List.Forall₂.nil⟩
  | cons x xs ih =>
    intro h
    obtain ⟨y, hy⟩ := Option.isSome_iff_exists.1 (h x (by simp))
    obtain ⟨ys, hys, hfa⟩ := ih (fun z hz => h z (by simp [hz]))
    refine ⟨y :: ys, ?_, List.Forall₂.cons hy hfa⟩
    rw [List.mapM_cons, hy, hys]
    rfl

/-- When every row of the frame carries the same `paper_id` (and tokenization
succeeds on every row), the single group that `combine_inputs` keeps is the
whole input: nothing is dropped by `out.to_list()[0]`. -/
theorem combine_inputs_eq_all (tok : Bool → String → TokOut) (rows : List RawRecord)
    (c : Nat) (hne : rows ≠ []) (hpid : ∀ r ∈ rows, r.paper_id = c)
    (htoks : ∀ r ∈ rows, (tokenizeRow tok r).isSome) :
    combine_inputs tok rows = combineGroupAll tok rows := by
  obtain ⟨ys, hys, hfa⟩ := mapM_option_isSome (tokenizeRow tok) rows htoks
  have hkeys : uniqueSortedKeys (rows.map RawRecord.paper_id) = [c] :=
    uniqueSortedKeys_const (by simpa using hne)
      (fun x hx => by
        obtain ⟨r, hr, rfl⟩ := List.mem_map.1 hx
        exact hpid r hr)
  have hfilter : ((rows.zip ys).filter (fun p => p.1.paper_id = c)) = rows.zip ys := by
    refine List.filter_eq_self.2 ?_
    intro p hp
    exact decide_eq_true (hpid p.1 (List.of_mem_zip hp).1)
  rw [combine_inputs, combineGroupAll, hys]
  show (Option.some ys).bind _ = _
  rw [Option.some_bind, hkeys]
  show some (aggGroup ((((rows.zip ys).filter (fun p => p.1.paper_id = c)).map Prod.snd))) = _
  rw [hfilter, List.map_snd_zip rows ys (le_of_eq hfa.length_eq.symm)]
  rfl

/-- C3: in paper-level mode, `combine_inputs` concatenates the per-sentence
tokenized sequences in the paper's source sentence order with no gaps or
overlaps, and each sentence's boolean label is propagated to every token
position of that sentence. -/
theorem combine_inputs_paper_concat (tok : Bool → String → TokOut)
    (rows : List (Nat × String × Bool)) (c : Nat)
    (hne : rows ≠ []) (hpid : ∀ r ∈ rows, r.1 = c) :
    combine_inputs tok
        (rows.map (fun r => RawRecord.mk r.1 (some r.2.1) (some r.2.2)))
      = some
        { input_ids := (rows.map (fun r => (tok false r.2.1).input_ids)).flatten
        , token_type_ids := (rows.map (fun r => (tok false r.2.1).token_type_ids)).flatten
        , attention_mask := (rows.map (fun r => (tok false r.2.1).attention_mask)).flatten
        , targets := (rows.map (fun r => List.replicate (tok false r.2.1).input_ids.length
            (if r.2.2 then (1 : ℚ) else 0))).flatten } := by
  set data := rows.map (fun r => RawRecord.mk r.1 (some r.2.1) (some r.2.2)) with hdata
  have hner : data ≠ [] := by
    rw [hdata]
    simpa using hne
  have hpidr : ∀ r ∈ data, r.paper_id = c := by
    intro r hr
    rw [hdata] at hr
    obtain ⟨p, hp, rfl⟩ := List.mem_map.1 hr
    exact hpid p hp
  have htoks : ∀ r ∈ data, (tokenizeRow tok r).isSome := by
    intro r hr
    rw [hdata] at hr
    obtain ⟨p, hp, rfl⟩ := List.mem_map.1 hr
    rw [tokenizeRow]
    rfl
  have hmapM : data.mapM (tokenizeRow tok)
      = some (data.map (fun rec =>
          match rec.text, rec.in_summary with
          | some t, some s =>
            SentTok.mk (tok false t).input_ids (tok false t).token_type_ids
              (tok false t).attention_mask
              (List.replicate (tok false t).input_ids.length (if s then (1 : ℚ) else 0))
          | _, _ => SentTok.mk [] [] [] [])) := by
    refine mapM_option_eq_some_map _ _ _ ?_
    intro r hr
    rw [hdata] at hr
    obtain ⟨p, hp, rfl⟩ := List.mem_map.1 hr
    rfl
  rw [combine_inputs_eq_all tok data c hner hpidr htoks, combineGroupAll, hmapM,
    Option.map_some', hdata]
  simp only [aggGroup, List.map_map]
  rfl

/-- Concrete tokenizer for the C3 scenario: sentence "a" has 5 tokens, "b"
has 7, "c" has 3. -/
def tok3 : Bool → String → TokOut := fun _ s =>
  if s = "a" then ⟨[1, 2, 3, 4, 5], [0, 0, 0, 0, 0], [1, 1, 1, 1, 1]⟩
  else if s = "b" then
    ⟨[6, 7, 8, 9, 10, 11, 12], [0, 0, 0, 0, 0, 0, 0], [1, 1, 1, 1, 1, 1, 1]⟩
  else ⟨[13, 14, 15], [0, 0, 0], [1, 1, 1]⟩

/-- Witness for C3, realising the spec's scenario: three sentences of token
lengths 5, 7 and 3 with labels True, False, True give one example of length
15 with targets `[1]*5 ++ [0]*7 ++ [1]*3`. -/
theorem combine_inputs_paper_concat_witness :
    (([(0, "a", true), (0, "b", false), (0, "c", true)] : List (Nat × String × Bool)) ≠ []
      ∧ ∀ r ∈ ([(0, "a", true), (0, "b", false), (0, "c", true)] : List (Nat × String × Bool)),
          r.1 = 0)
    ∧ combine_inputs tok3
        (([(0, "a", true), (0, "b", false), (0, "c", true)] : List (Nat × String × Bool)).map
          (fun r => RawRecord.mk r.1 (some r.2.1) (some r.2.2)))
      = some
        { input_ids := [1, 2, 3, 4, 5, 6, 7, 8, 9, 10, 11, 12, 13, 14, 15]
        , token_type_ids := [0, 0, 0, 0, 0, 0, 0, 0, 0, 0, 0, 0, 0, 0, 0]
        , attention_mask := [1, 1, 1, 1, 1, 1, 1, 1, 1, 1, 1, 1, 1, 1, 1]
        , targets := [1, 1, 1, 1, 1, 0, 0, 0, 0, 0, 0, 0, 1, 1, 1] } :=
  ⟨⟨by decide, by decide⟩,
    (combine_inputs_paper_concat tok3 [(0, "a", true), (0, "b", false), (0, "c", true)] 0
      (by decide) (by decide)).trans (by decide)⟩

theorem mem_of_getElem?_eq_some {α : Type} {l : List α} {i : Nat} {a : α}
    (h : l[i]? = some a) : a ∈ l := by
  obtain ⟨hlt, rfl⟩ := List.getElem?_eq_some_iff.1 h
  exact List.getElem_mem hlt

theorem count_filter_ite {α : Type} [DecidableEq α] (p : α → Bool) (l : List α) (a : α) :
    (l.filter p).count a = if p a = true then l.count a else 0 := by
  by_cases h : p a = true
  · rw [if_pos h, List.count_filter h]
  · rw [if_neg h, List.count_eq_zero]
    intro hmem
    exact h (List.mem_filter.1 hmem).2

theorem sum_map_count_ite {α : Type} [DecidableEq α] (a : α) :
    ∀ (l : List α), (l.map (fun k => if a = k then 1 else 0)).sum = l.count a := by
  intro l
  induction l with
  | nil => rfl
  | cons x l ih =>
    rw [List.map_cons, List.sum_cons, ih]
    by_cases h : a = x
    · simp [List.count_cons, h, Nat.add_comm]
    · simp [List.count_cons, h]

/-- C10: `combine_inputs` keeps only the first group of its internal
`paper_id` aggregation (`out.to_list()[0]`), so its result covers the whole
input exactly when every row it receives shares a single `paper_id`.  This
precondition is maintained by every paper-level `__getitem__` call: the rows
selected through `papers_dict[index]` all carry one `paper_id`, and
`papers_dict`, built at construction, partitions the frame's row indices by
`paper_id` (each index appears in exactly one group). -/
theorem papersDict_partition_and_cover (tok : Bool → String → TokOut)
    (data : List RawRecord) (index : Nat) (g : List Nat)
    (hwf : ∀ r ∈ data, r.text.isSome ∧ r.in_summary.isSome)
    (hg : (papersDict data)[index]? = some g) :
    (g.filterMap (fun i => data[i]?) ≠ []
      ∧ ∃ k, ∀ r ∈ g.filterMap (fun i => data[i]?), r.paper_id = k)
    ∧ combine_inputs tok (g.filterMap (fun i => data[i]?))
        = combineGroupAll tok (g.filterMap (fun i => data[i]?))
    ∧ getitemPaper tok data index
        = combineGroupAll tok (g.filterMap (fun i => data[i]?))
    ∧ (∀ i, i < data.length → (papersDict data).flatten.count i = 1)
    ∧ (∀ i ∈ (papersDict data).flatten, i < data.length) := by
  obtain ⟨k, hk, hgdef⟩ : ∃ k,
      (uniqueSortedKeys (data.map RawRecord.paper_id))[index]? = some k
      ∧ g = (List.range data.length).filter
          (fun i => decide ((data[i]?.map RawRecord.paper_id) = some k)) := by
    rw [papersDict, List.getElem?_map] at hg
    cases hkk : (uniqueSortedKeys (data.map RawRecord.paper_id))[index]? with
    | none => rw [hkk] at hg; simp at hg
    | some kk =>
      rw [hkk] at hg
      exact ⟨kk, rfl, (Option.some.inj hg).symm⟩
  have hselpid : ∀ r ∈ g.filterMap (fun i => data[i]?), r.paper_id = k := by
    intro r hr
    obtain ⟨i, hig, hir⟩ := List.mem_filterMap.1 hr
    rw [hgdef] at hig
    have hp := (List.mem_filter.1 hig).2
    rw [decide_eq_true_iff] at hp
    rw [hir] at hp
    exact Option.some.inj hp
  have hselmem : ∀ r ∈ g.filterMap (fun i => data[i]?), r ∈ data := by
    intro r hr
    obtain ⟨i, _, hir⟩ := List.mem_filterMap.1 hr
    exact mem_of_getElem?_eq_some hir
  have hselne : g.filterMap (fun i => data[i]?) ≠ [] := by
    have hkmem : k ∈ data.map RawRecord.paper_id :=
      (mem_uniqueSortedKeys _ _).1 (mem_of_getElem?_eq_some hk)
    obtain ⟨r0, hr0, hpid0⟩ := List.mem_map.1 hkmem
    obtain ⟨j, hj, rfl⟩ := List.mem_iff_getElem.1 hr0
    have hjg : j ∈ g := by
      rw [hgdef, List.mem_filter]
      refine ⟨List.mem_range.2 hj, ?_⟩
      rw [List.getElem?_eq_getElem hj]
      simpa using hpid0
    exact List.ne_nil_of_mem
      (List.mem_filterMap.2 ⟨j, hjg, List.getElem?_eq_getElem hj⟩)
  have htoks : ∀ r ∈ g.filterMap (fun i => data[i]?), (tokenizeRow tok r).isSome := by
    intro r hr
    obtain ⟨ht, _⟩ := hwf r (hselmem r hr)
    obtain ⟨t, ht'⟩ := Option.isSome_iff_exists.1 ht
    rw [tokenizeRow, ht']
    rfl
  have hcover : combine_inputs tok (g.filterMap (fun i => data[i]?))
      = combineGroupAll tok (g.filterMap (fun i => data[i]?)) :=
    combine_inputs_eq_all tok _ k hselne hselpid htoks
  refine ⟨⟨hselne, k, hselpid⟩, hcover, ?_, ?_, ?_⟩
  · rw [getitemPaper, hg]
    exact hcover
  · intro i hi
    have hri : data[i]? = some data[i] := List.getElem?_eq_getElem hi
    rw [papersDict, List.count_flatten, List.map_map]
    have hcongr : ∀ kk ∈ uniqueSortedKeys (data.map RawRecord.paper_id),
        (List.count i ∘ fun kk => (List.range data.length).filter
            (fun j => decide ((data[j]?.map RawRecord.paper_id) = some kk))) kk
          = (fun kk => if data[i].paper_id = kk then 1 else 0) kk := by
      intro kk _
      show ((List.range data.length).filter
          (fun j => decide ((data[j]?.map RawRecord.paper_id) = some kk))).count i
        = if data[i].paper_id = kk then 1 else 0
      rw [count_filter_ite]
      by_cases h : data[i].paper_id = kk
      · rw [if_pos h, if_pos (by rw [hri]; simpa using h),
          List.count_eq_one_of_mem (List.nodup_range _) (List.mem_range.2 hi)]
      · rw [if_neg h, if_neg (by rw [hri]; simpa using h)]
    rw [List.map_congr_left hcongr, sum_map_count_ite,
      List.count_eq_one_of_mem (nodup_uniqueSortedKeys _)
        ((mem_uniqueSortedKeys _ _).2
          (List.mem_map.2 ⟨data[i], List.getElem_mem hi, rfl⟩))]
  · intro i hi
    obtain ⟨gg, hgg, higg⟩ := List.mem_flatten.1 hi
    rw [papersDict] at hgg
    obtain ⟨kk, _, rfl⟩ := List.mem_map.1 hgg
    exact List.mem_range.1 (List.mem_filter.1 higg).1

/-- Two-paper frame used by the C10 witness (papers 1 and 0, one sentence
each; groupby sorts the keys, so index 0 holds paper 0's row list `[1]`). -/
def twoPaperData : List RawRecord :=
  [RawRecord.mk 1 (some "x") (some true), RawRecord.mk 0 (some "y") (some false)]

/-- Witness for C10 on a two-paper frame at group index 0. -/
theorem papersDict_partition_and_cover_witness :
    ((∀ r ∈ twoPaperData, r.text.isSome ∧ r.in_summary.isSome)
      ∧ (papersDict twoPaperData)[0]? = some [1])
    ∧ (([1].filterMap (fun i => twoPaperData[i]?) ≠ []
        ∧ ∃ k, ∀ r ∈ [1].filterMap (fun i => twoPaperData[i]?), r.paper_id = k)
      ∧ combine_inputs tok3 ([1].filterMap (fun i => twoPaperData[i]?))
          = combineGroupAll tok3 ([1].filterMap (fun i => twoPaperData[i]?))
      ∧ getitemPaper tok3 twoPaperData 0
          = combineGroupAll tok3 ([1].filterMap (fun i => twoPaperData[i]?))
      ∧ (∀ i, i < twoPaperData.length → (papersDict twoPaperData).flatten.count i = 1)
      ∧ (∀ i ∈ (papersDict twoPaperData).flatten, i < twoPaperData.length)) :=
  ⟨⟨by decide, by decide⟩,
    papersDict_partition_and_cover tok3 twoPaperData 0 [1] (by decide) (by decide)⟩

/-! ## Malformed records are not rejected at construction (claim C7) -/

/-- Counterexample to C7: a frame holding a record with no `text` is accepted
by `SuMM_with_tokenizer.__init__` — construction succeeds (`some`), it does
not fail fast. -/
theorem mkProvider_accepts_malformed_counterexample :
    mkProvider [RawRecord.mk 0 none (some true)] ≠ none := by
  rw [mkProvider]
  exact fun h => Option.noConfusion h

/-- C7 as amended: `__init__` reads only `paper_id`, so constructing the
provider always succeeds — a malformed record is not rejected at load time.
A record missing `text` is rejected at first access: sentence-mode
`__getitem__` raises when the tokenizer receives the missing value.  A
record missing `in_summary` is never rejected at all: line 206's
`if datum.in_summary` silently coerces the missing (NaN, truthy) cell, so
the example is produced with positive-class labels. -/
theorem provider_defers_malformed (tok : Bool → String → TokOut)
    (data : List RawRecord) (index : Nat) (r : RawRecord)
    (hr : data[index]? = some r) :
    mkProvider data = some (SuMMProvider.mk data (papersDict data))
    ∧ (r.text = none → getitemSentence tok data index = none)
    ∧ (∀ txt, r.text = some txt → r.in_summary = none →
        getitemSentence tok data index
          = some { input_ids := (tok true txt).input_ids
                 , token_type_ids := (tok true txt).token_type_ids
                 , attention_mask := (tok true txt).attention_mask
                 , targets := List.replicate (tok true txt).input_ids.length 1 }) := by
  refine ⟨rfl, ?_, ?_⟩
  · intro hb
    simp only [getitemSentence, hr, hb]
  · intro txt ht hs
    simp only [getitemSentence, hr, ht, hs]
    rfl

/-- Two-record frame for the C7 witness: record 0 misses `text`, record 1
misses `in_summary`. -/
def malformedData : List RawRecord :=
  [RawRecord.mk 0 none (some true), RawRecord.mk 0 (some "x") none]

/-- Witness for the amended C7: construction succeeds over the malformed
frame; the missing-text record raises at access, while the missing-label
record is silently coerced to positive-class targets. -/
theorem provider_defers_malformed_witness :
    (malformedData[0]? = some (RawRecord.mk 0 none (some true))
      ∧ malformedData[1]? = some (RawRecord.mk 0 (some "x") none))
    ∧ mkProvider malformedData
        = some (SuMMProvider.mk malformedData (papersDict malformedData))
    ∧ getitemSentence tok3 malformedData 0 = none
    ∧ getitemSentence tok3 malformedData 1
        = some { input_ids := (tok3 true "x").input_ids
               , token_type_ids := (tok3 true "x").token_type_ids
               , attention_mask := (tok3 true "x").attention_mask
               , targets := List.replicate (tok3 true "x").input_ids.length 1 } :=
  ⟨⟨by decide, by decide⟩,
    (provider_defers_malformed tok3 malformedData 0
      (RawRecord.mk 0 none (some true)) (by decide)).1,
    (provider_defers_malformed tok3 malformedData 0
      (RawRecord.mk 0 none (some true)) (by decide)).2.1 rfl,
    (provider_defers_malformed tok3 malformedData 1
      (RawRecord.mk 0 (some "x") none) (by decide)).2.2 "x" rfl rfl⟩
